import Mathlib

/-!
# Verification of the scrapeApp article-to-presentation pipeline

Shallow embedding of the core of `create_slides.py` (class
`SocksStudioSlidesCreator`): the caption heuristic parser
(`parse_figcaption`), the per-image metadata fallback of the extractors,
the LLM metadata enhancer's acceptance/fill logic, the listing fetchers
(`_get_socks_studio_urls` / `_get_public_domain_urls`), the processed-item
ledger, and the batch controller (`process_article` / `run_batch`).

Python strings are modelled as Lean `String`s; the string operations the
code uses (`split(',')`, `strip()`, `replace`, `', '.join`) are implemented
structurally over `List Char` so that they mirror Python semantics and
evaluate by kernel reduction.  The year regex `\b(1\d{3}|20\d{2})\b` is
implemented as an explicit leftmost-match scanner; `\d`/`\w` are modelled
as ASCII digit / alphanumeric-or-underscore, which agrees with Python on
the ASCII inputs that appear in the claims.  Network fetches, the Google
Slides/Sheets APIs and the Anthropic API are oracles supplied through an
environment record, exactly as the controller observes them.
-/

namespace ScrapeApp

/-! ## Python-style string primitives (structural, kernel-reducible) -/

/-- Python whitespace for `str.strip()` (ASCII fragment). -/
def isPySpace (c : Char) : Bool :=
  c = ' ' || c = '\t' || c = '\n' || c = '\r' || c = '\x0b' || c = '\x0c'

/-- Python `s.strip()` on a character list. -/
def pyStrip (cs : List Char) : List Char :=
  ((cs.dropWhile isPySpace).reverse.dropWhile isPySpace).reverse

/-- Python `s.split(',')`: never returns `[]`; `"".split(',') = ['']`. -/
def splitComma : List Char → List (List Char)
  | [] => [[]]
  | c :: rest =>
    let r := splitComma rest
    if c = ',' then [] :: r
    else
      match r with
      | h :: t => (c :: h) :: t
      | [] => [[c]]

/-- Python `', '.join(xs)`. -/
def joinCommaSpace : List (List Char) → List Char
  | [] => []
  | [x] => x
  | x :: xs => x ++ (',' :: ' ' :: joinCommaSpace xs)

/-- Fuel-driven core of `removeAll` (fuel bounds the number of steps so the
recursion is structural and kernel-reducible). -/
def removeAllFuel (pat : List Char) : Nat → List Char → List Char
  | _, [] => []
  | 0, cs => cs
  | fuel + 1, c :: rest =>
    if pat.isPrefixOf (c :: rest) then
      removeAllFuel pat fuel (List.drop (pat.length - 1) rest)
    else
      c :: removeAllFuel pat fuel rest

/-- Python `s.replace(pat, '')` for a non-empty pattern: removes all
non-overlapping occurrences of `pat`, scanning left to right. -/
def removeAll (pat cs : List Char) : List Char :=
  removeAllFuel pat cs.length cs

/-- `\w` of the year regex: ASCII letter, digit or underscore. -/
def isWordChar (c : Char) : Bool :=
  c.isAlpha || c.isDigit || c = '_'

/-- Does the regex alternative `(1\d{3}|20\d{2})\b` match at the head of
`cs`?  Returns the four matched digit characters. -/
def yearAt (cs : List Char) : Option (List Char) :=
  match cs with
  | a :: b :: c :: d :: rest =>
    if a.isDigit && b.isDigit && c.isDigit && d.isDigit &&
        (a = '1' || (a = '2' && b = '0')) &&
        (match rest with
         | [] => true
         | r :: _ => !isWordChar r) then
      some [a, b, c, d]
    else
      none
  | _ => none

/-- Left word boundary `\b`: start of string, or previous char non-word. -/
def boundaryBefore : Option Char → Bool
  | none => true
  | some c => !isWordChar c

/-- Leftmost-match scanner for `re.search(r'\b(1\d{3}|20\d{2})\b', s)`. -/
def findYearAux : Option Char → List Char → Option (List Char)
  | _, [] => none
  | prev, c :: rest =>
    match (if boundaryBefore prev then yearAt (c :: rest) else none) with
    | some ys => some ys
    | none => findYearAux (some c) rest

/-- `re.search(r'\b(1\d{3}|20\d{2})\b', s)`: the first 4-digit year token
(with word boundaries) in `s`, if any. -/
def findYearL (cs : List Char) : Option (List Char) :=
  findYearAux none cs

/-! ## Caption heuristic parser (`parse_figcaption`, create_slides.py 461-500) -/

/-- The partial metadata dict returned by `parse_figcaption`: a field is
`none` exactly when the Python dict lacks the corresponding key. -/
structure CaptionMeta where
  artist : Option String := none
  title : Option String := none
  year : Option String := none
  medium : Option String := none
deriving Repr, DecidableEq

/-- Last step of `parse_figcaption`: split the year-stripped remainder on
commas; the first segment (stripped) is the title, and when more than one
segment remains the last one (stripped) is the medium. -/
def mkRest (p0 : List Char) (yr : Option String) (tam : List Char) : CaptionMeta :=
  match splitComma tam with
  | r0 :: rs =>
    { artist := some (String.mk p0), year := yr,
      title := some (String.mk (pyStrip r0)),
      medium := (rs.getLast?).map (fun l => String.mk (pyStrip l)) }
  | [] =>
    { artist := some (String.mk p0), year := yr,
      title := some (String.mk (pyStrip tam)) }

/-- Middle step of `parse_figcaption`: search the joined remainder for a
year token; if found, record it and delete it (Python `str.replace`) from
the remainder before computing title/medium. -/
def parseTail (p0 tam0 : List Char) : CaptionMeta :=
  match findYearL tam0 with
  | some y => mkRest p0 (some (String.mk y)) (pyStrip (removeAll y tam0))
  | none => mkRest p0 none tam0

/-- First step of `parse_figcaption`: split on commas and strip each part;
only captions with at least two segments produce any fields, and the first
segment becomes the artist. -/
def parseParts : List (List Char) → CaptionMeta
  | p0 :: p1 :: rest => parseTail p0 (joinCommaSpace (p1 :: rest))
  | _ => {}

/-- `SocksStudioSlidesCreator.parse_figcaption` (create_slides.py 461-500).
The `fallback_metadata` argument of the Python method is unused by its body
and is omitted. -/
def parse_figcaption (caption : String) : CaptionMeta :=
  if caption.data.isEmpty then {}
  else parseParts ((splitComma caption.data).map pyStrip)

/-! ## Item-level metadata and the per-image fallback
(`_extract_socks_studio_data` 606-621, `_extract_public_domain_data` 780-796) -/

/-- The `metadata` dict built by the extractors: `author/title/year/medium`
are always present (initialised to `"Unknown"`); `keywords` is only present
once the enhancer adds it, hence `Option`. -/
structure ItemMeta where
  author : String := "Unknown"
  title : String := "Unknown"
  year : String := "Unknown"
  medium : String := "Unknown"
  keywords : Option String := none
deriving Repr, DecidableEq

/-- One per-field step of the fallback:
`x.get(f) if x.get(f) and x.get(f) != 'Unknown' else item_value`.
Python truthiness makes the empty string fall back as well. -/
def pickField (cap : Option String) (item : String) : String :=
  match cap with
  | some v => if v ≠ "" ∧ v ≠ "Unknown" then v else item
  | none => item

/-- One entry of the extractors' `images` list. -/
structure ImageData where
  url : String
  caption : String
  artist : String
  title : String
  year : String
  medium : String
deriving Repr, DecidableEq

/-- Build one image entry from its resolved URL, its caption text and the
item-level metadata: parse the caption, then fall back field by field
(create_slides.py 606-621; the public-domain variant at 780-796 is
identical, since `metadata['title']` is always a present key). -/
def mkImage (u c : String) (meta : ItemMeta) : ImageData :=
  let am := parse_figcaption c
  { url := u, caption := c,
    artist := pickField am.artist meta.author,
    title := pickField am.title meta.title,
    year := pickField am.year meta.year,
    medium := pickField am.medium meta.medium }

/-- Deduplicate the image list by URL, keeping the first occurrence
(create_slides.py 623-630 and 798-805); `seen` is the set of already-kept
URLs. -/
def dedupImages (seen : List String) : List ImageData → List ImageData
  | [] => []
  | i :: rest =>
    if i.url ∈ seen then dedupImages seen rest
    else i :: dedupImages (seen ++ [i.url]) rest

/-- The image-assembly part of the extractors: each surviving figure
(resolved URL, caption text) becomes an image entry via `mkImage`, and the
list is deduplicated by URL preserving order. -/
def extractImages (figs : List (String × String)) (meta : ItemMeta) : List ImageData :=
  dedupImages [] (figs.map (fun f => mkImage f.1 f.2 meta))

/-! ## Metadata enhancer (`enhance_metadata_with_llm` 431-455, apply site 634-650) -/

/-- The `result` dict built from the LLM response: a field is present only
when its label matched and passed the acceptance test. -/
structure EnhResult where
  author : Option String := none
  year : Option String := none
  medium : Option String := none
  keywords : Option String := none
deriving Repr, DecidableEq

/-- `Artist:` label: accept `group(1).strip()` unless it is
`'Unknown'` or `'unknown'` (create_slides.py 436-438). -/
def acceptArtist (s : String) : Option String :=
  if String.mk (pyStrip s.data) ≠ "Unknown" ∧ String.mk (pyStrip s.data) ≠ "unknown" then
    some (String.mk (pyStrip s.data))
  else none

/-- `Year:` label: the regex captures `(\d{4}|Unknown)`; accept the capture
unless it is `'Unknown'` (create_slides.py 441-443). -/
def acceptYear (s : String) : Option String :=
  if s ≠ "Unknown" then some s else none

/-- `Medium:` label: accept `group(1).strip()` unless it is `'Unknown'`
(create_slides.py 446-448). -/
def acceptMedium (s : String) : Option String :=
  if String.mk (pyStrip s.data) ≠ "Unknown" then some (String.mk (pyStrip s.data)) else none

/-- `Keywords:` label: accept `group(1).strip()` unless it is `'Unknown'`
or `'unknown'` (create_slides.py 451-453). -/
def acceptKeywords (s : String) : Option String :=
  if String.mk (pyStrip s.data) ≠ "Unknown" ∧ String.mk (pyStrip s.data) ≠ "unknown" then
    some (String.mk (pyStrip s.data))
  else none

/-- The response-parsing tail of `enhance_metadata_with_llm`
(create_slides.py 431-455).  The four arguments are the capture groups of
the `Artist:/Year:/Medium:/Keywords:` label regexes (`none` when the label
regex did not match); the regex application itself is abstracted, the
acceptance filters are modelled exactly. -/
def parseEnhancerOutput (artist year medium keywords : Option String) : EnhResult :=
  { author := artist.bind acceptArtist,
    year := year.bind acceptYear,
    medium := medium.bind acceptMedium,
    keywords := keywords.bind acceptKeywords }

/-- One field of the enhanced-metadata application: fill the current value
only when it still holds the `'Unknown'` sentinel and the enhanced value is
truthy (`if metadata[f] == 'Unknown' and enhanced_metadata.get(f):`). -/
def fillIfUnknown (cur : String) (v? : Option String) : String :=
  match v? with
  | some v => if cur = "Unknown" ∧ v ≠ "" then v else cur
  | none => cur

/-- The keywords step of the application
(`if enhanced_metadata.get('keywords'):`): set whenever the enhanced value
is truthy — no `keywords` key exists at this point in the extractor. -/
def setKeywords (meta : ItemMeta) (v? : Option String) : ItemMeta :=
  match v? with
  | some v => if v ≠ "" then { meta with keywords := some v } else meta
  | none => meta

/-- Applying the enhancer result to the item metadata
(create_slides.py 638-650): the three `'Unknown'`-gated fills touch
distinct fields, so the sequential Python updates are this simultaneous
record update followed by the keywords step. -/
def applyEnhanced (meta : ItemMeta) (e : EnhResult) : ItemMeta :=
  setKeywords
    { meta with
        author := fillIfUnknown meta.author e.author,
        year := fillIfUnknown meta.year e.year,
        medium := fillIfUnknown meta.medium e.medium }
    e.keywords

/-! ## Listing fetcher
(`_get_socks_studio_urls` 299-341, `_get_public_domain_urls` 343-379)

A listing page is abstracted to the list of links its page-structure
pattern extracts: for socks-studio, one `Option String` per `<article>`
element (`none` when the article has no `h2`-wrapped anchor with an
`href`); for public-domain-review, the anchors matching
`^/collection/[^/]+/$` always carry an href, so each is `some url`.
Pagination breaks exactly when that element list is empty. -/

/-- Has the inner `limit` check fired?  Python `if limit and len(...) >= limit`:
a limit of `0` is falsy and never fires. -/
def limitHit (limit : Option Nat) (n : Nat) : Bool :=
  match limit with
  | none => false
  | some l => decide (0 < l ∧ l ≤ n)

/-- The per-page link loop: append each extracted URL not already
collected, returning early (second component `true`) as soon as the limit
is reached by a newly appended URL. -/
def addLinks (limit : Option Nat) : List String → List (Option String) → List String × Bool
  | acc, [] => (acc, false)
  | acc, none :: rest => addLinks limit acc rest
  | acc, some u :: rest =>
    if u ∈ acc then addLinks limit acc rest
    else
      let acc' := acc ++ [u]
      if limitHit limit acc'.length then (acc', true)
      else addLinks limit acc' rest

/-- The pagination loop: fetch page `page`, stop if it has no extracted
elements, otherwise collect its links (early-returning on the limit) and
move to the next page while the page ceiling (`fuel`) allows. -/
def paginate (pages : Nat → List (Option String)) (limit : Option Nat) :
    Nat → Nat → List String → List String
  | 0, _, acc => acc
  | fuel + 1, page, acc =>
    let arts := pages page
    if arts.isEmpty then acc
    else
      match addLinks limit acc arts with
      | (acc', true) => acc'
      | (acc', false) => paginate pages limit fuel (page + 1) acc'

/-- The two supported sites (`--site` closed enum). -/
inductive Site
  | socks
  | pdr
deriving Repr, DecidableEq

/-- Hard page ceiling: 50 for socks-studio (`if page > 50: break`),
23 fixed pages for public-domain-review (`max_pages = 23`). -/
def pageCeiling : Site → Nat
  | .socks => 50
  | .pdr => 23

/-- `get_article_urls` (create_slides.py 381-388), dispatching on the site;
both variants walk pages starting at 1 with an empty accumulator. -/
def get_article_urls (site : Site) (pages : Nat → List (Option String))
    (limit : Option Nat) : List String :=
  paginate pages limit (pageCeiling site) 1 []

/-! ## Processed-item ledger (create_slides.py 164-191) -/

/-- One `ProcessingRecord`: the value stored in
`processed_articles_<site>.json` under the article URL
(`save_processed_article`, 171-186). -/
structure ProcessingRecord where
  presentation_id : String
  presentation_url : String
  title : String
  author : String
  year : String
  medium : String
  keywords : String
  slide_count : Nat
  processed_date : String
deriving Repr, DecidableEq

/-- The ledger as the insertion-ordered association list of a Python dict
(keys unique; first match is the binding). -/
def lookupLedger : List (String × ProcessingRecord) → String → Option ProcessingRecord
  | [], _ => none
  | (k, v) :: rest, u => if k = u then some v else lookupLedger rest u

/-- `save_processed_article`: load the whole dict, set the key (overwriting
in place, as a Python dict does), write the whole dict back. -/
def setLedger : List (String × ProcessingRecord) → String → ProcessingRecord →
    List (String × ProcessingRecord)
  | [], u, r => [(u, r)]
  | (k, v) :: rest, u, r =>
    if k = u then (u, r) :: rest else (k, v) :: setLedger rest u r

/-! ## Batch controller (`process_article` 1180-1230, `run_batch` 1232-1333) -/

/-- The extractor's output for one item: `metadata` plus the ordered,
deduplicated image list. -/
structure ArticleData where
  metadata : ItemMeta
  images : List ImageData
deriving Repr, DecidableEq

/-- The two shared mutable stores: the per-site ledger file and the catalog
spreadsheet (append-only rows, keyed here by article URL for legibility). -/
structure BatchState where
  ledger : List (String × ProcessingRecord)
  catalog : List (String × ProcessingRecord)
deriving Repr, DecidableEq

/-- `is_article_processed` (create_slides.py 188-191). -/
def isProcessed (s : BatchState) (u : String) : Bool :=
  (lookupLedger s.ledger u).isSome

/-- The external collaborators as the controller observes them:
`extract` is `extract_article_data` (`none` = page fetch failed);
`buildPres` is `create_presentation`'s API interaction (`none` = the
Slides API errored, `some pid` = the new presentation id); `catalogRaises`
tells whether `add_to_catalog`'s append call raises for a given URL;
`now` is `datetime.now().isoformat()`. -/
structure Env where
  extract : String → Option ArticleData
  buildPres : ArticleData → Option String
  catalogRaises : String → Bool
  now : String

/-- The `presentation_data` dict assembled in `process_article`
(create_slides.py 1211-1221). -/
def mkPresData (env : Env) (ad : ArticleData) (pid : String) : ProcessingRecord :=
  { presentation_id := pid,
    presentation_url := "https://docs.google.com/presentation/d/" ++ pid,
    title := ad.metadata.title,
    author := ad.metadata.author,
    year := ad.metadata.year,
    medium := ad.metadata.medium,
    keywords := ad.metadata.keywords.getD "",
    slide_count := ad.images.length,
    processed_date := env.now }

/-- Outcome of one `process_article` call: a returned record, or a raised
exception (`err`). -/
inductive ItemResult
  | ok (r : ProcessingRecord)
  | err
deriving Repr, DecidableEq

/-- `process_article` (create_slides.py 1180-1230): extract; raise if no
data or no images; build the presentation, raising on failure; write the
ledger record; then append to the catalog, which may itself raise (after
the ledger write). -/
def process_article (env : Env) (s : BatchState) (url : String) :
    ItemResult × BatchState :=
  match env.extract url with
  | none => (.err, s)
  | some ad =>
    if ad.images.isEmpty then (.err, s)
    else
      match env.buildPres ad with
      | none => (.err, s)
      | some pid =>
        let pd := mkPresData env ad pid
        let s1 : BatchState := { s with ledger := setLedger s.ledger url pd }
        if env.catalogRaises url then (.err, s1)
        else (.ok pd, { s1 with catalog := s1.catalog ++ [(url, pd)] })

/-- The per-item loop of `run_batch` (create_slides.py 1288-1314): each
exception is caught, counted as skipped, and the loop advances.  Returns
(final state, created count, skipped count). -/
def runItems (env : Env) : BatchState → List String → BatchState × Nat × Nat
  | s, [] => (s, 0, 0)
  | s, u :: rest =>
    match process_article env s u with
    | (.ok _, s') =>
      let r := runItems env s' rest
      (r.1, r.2.1 + 1, r.2.2)
    | (.err, s') =>
      let r := runItems env s' rest
      (r.1, r.2.1, r.2.2 + 1)

/-- The inner filter loop of the discovery phase (create_slides.py
1273-1279): walk the newly fetched URLs, keep the unprocessed ones,
breaking as soon as `count` candidates have accumulated. -/
def addUnprocessed (proc : String → Bool) (count : Nat) :
    List String → List String → List String
  | acc, [] => acc
  | acc, u :: rest =>
    if proc u then addUnprocessed proc count acc rest
    else
      let acc' := acc ++ [u]
      if count ≤ acc'.length then acc' else addUnprocessed proc count acc' rest

/-- The discovery `while` loop of `run_batch` (create_slides.py 1256-1283),
with explicit fuel: `none` means the fuel ran out before the loop reached
one of its own exits.  `listing l` is `self.get_article_urls(limit=l)`;
`fetched` is `fetched_count`; the batch size is 50. -/
def discoverLoop (listing : Option Nat → List String) (proc : String → Bool)
    (count : Nat) : Nat → List String → Nat → Option (List String)
  | 0, _, _ => none
  | fuel + 1, acc, fetched =>
    if count ≤ acc.length then some acc
    else
      let allUrls := listing (some (fetched + 50))
      if allUrls.length = fetched then some acc
      else
        let acc' := addUnprocessed proc count acc (allUrls.drop fetched)
        discoverLoop listing proc count fuel acc' allUrls.length

/-- The discovery phase started from its initial state. -/
def discover (listing : Option Nat → List String) (proc : String → Bool)
    (count : Nat) (fuel : Nat) : Option (List String) :=
  discoverLoop listing proc count fuel [] 0

/-- `run_batch` (create_slides.py 1232-1333) after setup: discover up to
`count` unprocessed URLs against the current ledger, then process them
sequentially.  Fuel for the discovery loop is one more than the full
listing's length, which the termination theorem shows is always enough. -/
def runBatchModel (env : Env) (site : Site) (pages : Nat → List (Option String))
    (count : Nat) (s : BatchState) : Option (BatchState × Nat × Nat) :=
  match discover (fun l => get_article_urls site pages l)
      (fun u => isProcessed s u) count ((get_article_urls site pages none).length + 1) with
  | none => none
  | some urls => some (runItems env s urls)

/-! ## Analysis helpers for the listing fetcher -/

/-- First-occurrence deduplication of a link stream, starting from the
already-collected list `acc` (the reference semantics the pagination loop
is proved to implement). -/
def dedupStream : List String → List String → List String
  | acc, [] => acc
  | acc, u :: rest =>
    if u ∈ acc then dedupStream acc rest else dedupStream (acc ++ [u]) rest

/-- The full link stream a pagination walk can see: the extracted links of
pages `page, page+1, ..., page+fuel-1`, in page order. -/
def pageStreamFrom (pages : Nat → List (Option String)) : Nat → Nat → List String
  | _, 0 => []
  | page, fuel + 1 => (pages page).filterMap id ++ pageStreamFrom pages (page + 1) fuel

/-! ## Concrete instances used by counterexamples and witnesses -/

/-- C7 counterexample listing: page 2 repeats page 1's only link (zero new
links) and page 3 holds a fresh link. -/
def exPages7 : Nat → List (Option String)
  | 1 => [some "A"]
  | 2 => [some "A"]
  | 3 => [some "B"]
  | _ => []

/-- C2 counterexample listing: two items, `A` and `B`. -/
def exPages2 : Nat → List (Option String)
  | 1 => [some "A", some "B"]
  | _ => []

/-- C2 counterexample article data: one image, fully resolved metadata. -/
def exAd2 : ArticleData :=
  { metadata := { author := "Ann", title := "T2", year := "1999", medium := "Oil" },
    images := [{ url := "i2", caption := "", artist := "Ann", title := "T2",
                 year := "1999", medium := "Oil" }] }

/-- C2 counterexample environment: every extraction and build succeeds. -/
def exEnv2 : Env :=
  { extract := fun _ => some exAd2, buildPres := fun _ => some "P2",
    catalogRaises := fun _ => false, now := "2026-01-03" }

/-- The ledger record both runs of the C2 counterexample write. -/
def exRec2 : ProcessingRecord := mkPresData exEnv2 exAd2 "P2"

/-- A trivial environment for witnesses that never process an item. -/
def exEnvTrivial : Env :=
  { extract := fun _ => none, buildPres := fun _ => none,
    catalogRaises := fun _ => false, now := "2026-01-04" }

/-- Concrete item metadata used by the C6 witness. -/
def exMeta6 : ItemMeta :=
  { author := "Item Author", title := "Item Title", year := "1900", medium := "Print" }

/-- Concrete image entry used by the C6 witness: its caption supplies an
artist and a title but no year and no medium. -/
def exImg6 : ImageData := mkImage "u1" "Ada Byron, Study" exMeta6

/-- C1 witness environment: extraction always fails. -/
def exEnvFail : Env :=
  { extract := fun _ => none, buildPres := fun _ => none,
    catalogRaises := fun _ => false, now := "2026-01-01" }

/-- Concrete article data for the C9 witness. -/
def exAd9 : ArticleData :=
  { metadata := { author := "Ann", title := "T9", year := "1999", medium := "Oil" },
    images := [{ url := "i9", caption := "", artist := "Ann", title := "T9",
                 year := "1999", medium := "Oil" }] }

/-- Concrete environment for the C9 witness: extraction and build succeed,
the catalog append raises. -/
def exEnv9 : Env :=
  { extract := fun _ => some exAd9, buildPres := fun _ => some "P9",
    catalogRaises := fun _ => true, now := "2026-01-02" }

/-! ## Spec-side definitions (used only to state refinement claims) -/

/-- Modelled from the spec (§4.3): the comma-split, stripped segments of a
caption. -/
def specStrippedParts (caption : String) : List (List Char) :=
  (splitComma caption.data).map pyStrip

/-- Modelled from the spec (§4.3): "the remainder" — everything after the
first segment, rejoined. -/
def specRemainder (caption : String) : List Char :=
  joinCommaSpace ((specStrippedParts caption).drop 1)

/-- Modelled from the spec (§4.3): "the year is extracted and stripped from
the remainder". -/
def stripYearFrom (r y : List Char) : List Char :=
  pyStrip (removeAll y r)

/-- Modelled from the spec (§4.3): "of what remains, the first segment is
the title". -/
def specTitleOf (r : List Char) : String :=
  match splitComma r with
  | s :: _ => String.mk (pyStrip s)
  | [] => ""

/-- Modelled from the spec (§4.3): "the last remaining segment (if
distinct) is the medium". -/
def specMediumOf (r : List Char) : Option String :=
  match splitComma r with
  | _ :: rs => (rs.getLast?).map (fun s => String.mk (pyStrip s))
  | [] => none

/-! ## Helper lemmas -/

/-- Both branches of `parse_figcaption` agree with `parseParts` on the
stripped segments (an empty caption splits into the single segment `[]`,
which `parseParts` also maps to the empty result). -/
theorem parse_figcaption_eq (caption : String) :
    parse_figcaption caption = parseParts ((splitComma caption.data).map pyStrip) := by
  unfold parse_figcaption
  rcases hd : caption.data with _ | ⟨c, cs⟩ <;> simp [hd, splitComma, pyStrip, parseParts]

theorem mkRest_artist (p0 : List Char) (yr : Option String) (tam : List Char) :
    (mkRest p0 yr tam).artist = some (String.mk p0) := by
  unfold mkRest
  cases splitComma tam <;> rfl

theorem parseTail_artist (p0 tam0 : List Char) :
    (parseTail p0 tam0).artist = some (String.mk p0) := by
  unfold parseTail
  cases findYearL tam0 <;> apply mkRest_artist

theorem splitComma_ne_nil (cs : List Char) : splitComma cs ≠ [] := by
  cases cs with
  | nil => simp [splitComma]
  | cons c rest =>
    unfold splitComma
    by_cases hc : c = ','
    · simp [hc]
    · simp only [hc, if_false]
      rcases hr : splitComma rest with _ | ⟨h0, t⟩ <;> simp

theorem mkRest_year (p0 : List Char) (yr : Option String) (tam : List Char) :
    (mkRest p0 yr tam).year = yr := by
  unfold mkRest
  cases splitComma tam <;> rfl

theorem mkRest_title (p0 : List Char) (yr : Option String) (tam : List Char) :
    (mkRest p0 yr tam).title = some (specTitleOf tam) := by
  unfold mkRest specTitleOf
  rcases h : splitComma tam with _ | ⟨r0, rs⟩
  · exact absurd h (splitComma_ne_nil tam)
  · rfl

theorem mkRest_medium (p0 : List Char) (yr : Option String) (tam : List Char) :
    (mkRest p0 yr tam).medium = specMediumOf tam := by
  unfold mkRest specMediumOf
  rcases h : splitComma tam with _ | ⟨r0, rs⟩
  · exact absurd h (splitComma_ne_nil tam)
  · rfl

/-! ## Claim theorems: the caption parser (C3, C4, C5) -/

/-- C3: for every caption string with at least two comma-separated
segments whose remainder contains a 4-digit year token, `parse_figcaption`
returns that exact year as the year field, and the title and medium it
returns are computed from the remainder with that year token removed
(first segment of what remains = title, last remaining segment if distinct
= medium). -/
theorem c3_year_extraction (caption : String) (y : List Char)
    (hlen : 2 ≤ (specStrippedParts caption).length)
    (hy : findYearL (specRemainder caption) = some y) :
    (parse_figcaption caption).year = some (String.mk y) ∧
    (parse_figcaption caption).title =
      some (specTitleOf (stripYearFrom (specRemainder caption) y)) ∧
    (parse_figcaption caption).medium =
      specMediumOf (stripYearFrom (specRemainder caption) y) := by
  have hps : (splitComma caption.data).map pyStrip = specStrippedParts caption := rfl
  rw [parse_figcaption_eq, hps]
  rcases hp : specStrippedParts caption with _ | ⟨p0, _ | ⟨p1, rest⟩⟩
  · rw [hp] at hlen; simp at hlen
  · rw [hp] at hlen; simp at hlen
  · have hrem : specRemainder caption = joinCommaSpace (p1 :: rest) := by
      simp [specRemainder, hp]
    have hpp : parseParts (p0 :: p1 :: rest) = parseTail p0 (joinCommaSpace (p1 :: rest)) := rfl
    rw [hpp, ← hrem]
    unfold parseTail
    rw [hy]
    exact ⟨mkRest_year _ _ _, mkRest_title _ _ _, mkRest_medium _ _ _⟩

/-- C3 witness: a concrete caption with four segments and the year token
`2003` in its remainder. -/
theorem c3_year_extraction_witness :
    (parse_figcaption "Ann Lee, Dawn, 2003, ink").year = some (String.mk ['2', '0', '0', '3']) ∧
    (parse_figcaption "Ann Lee, Dawn, 2003, ink").title =
      some (specTitleOf (stripYearFrom (specRemainder "Ann Lee, Dawn, 2003, ink") ['2', '0', '0', '3'])) ∧
    (parse_figcaption "Ann Lee, Dawn, 2003, ink").medium =
      specMediumOf (stripYearFrom (specRemainder "Ann Lee, Dawn, 2003, ink") ['2', '0', '0', '3']) :=
  c3_year_extraction "Ann Lee, Dawn, 2003, ink" ['2', '0', '0', '3'] (by decide) (by decide)

/-- C4: on `"Jane Doe, Untitled Study, 1987, oil on canvas"`, the caption
parser returns artist `"Jane Doe"`, year `"1987"`, title
`"Untitled Study"` and medium `"oil on canvas"`. -/
theorem c4_example_caption :
    parse_figcaption "Jane Doe, Untitled Study, 1987, oil on canvas" =
      { artist := some "Jane Doe", title := some "Untitled Study",
        year := some "1987", medium := some "oil on canvas" } := by decide

/-- C5 counterexample: the non-empty single-segment caption `"Banksy"` has
no comma, and `parse_figcaption` returns the empty partial metadata — in
particular no artist field — contradicting the claim that the single
segment becomes the artist. -/
theorem c5_counterexample :
    ("Banksy" : String) ≠ "" ∧ parse_figcaption "Banksy" = ({} : CaptionMeta) := by decide

/-- C5 amended: the first comma-delimited segment is treated as the artist
name only when the caption has at least two comma-separated segments; a
caption with a single segment (no comma) yields no artist at all (the
parser returns the empty partial metadata). -/
theorem c5_amended_artist_rule (caption : String) (p0 : List Char) (ps : List (List Char))
    (h : (splitComma caption.data).map pyStrip = p0 :: ps) :
    (ps ≠ [] → (parse_figcaption caption).artist = some (String.mk p0)) ∧
    (ps = [] → (parse_figcaption caption).artist = none) := by
  rw [parse_figcaption_eq, h]
  constructor
  · intro hne
    rcases ps with _ | ⟨p1, rest⟩
    · exact absurd rfl hne
    · exact parseTail_artist p0 (joinCommaSpace (p1 :: rest))
  · intro he
    subst he
    rfl

/-- C5 amended witness: the two-segment caption `"X, Y"` gets artist `"X"`. -/
theorem c5_amended_artist_rule_witness :
    (parse_figcaption "X, Y").artist = some (String.mk ['X']) :=
  (c5_amended_artist_rule "X, Y" ['X'] [['Y']] (by decide)).1 (by decide)

/-! ## Claim theorems: per-field fallback in the extractors (C6) -/

theorem dedupImages_subset (seen : List String) (l : List ImageData) :
    ∀ i ∈ dedupImages seen l, i ∈ l := by
  induction l generalizing seen with
  | nil => simp [dedupImages]
  | cons a rest ih =>
    intro i hi
    simp only [dedupImages] at hi
    by_cases ha : a.url ∈ seen
    · rw [if_pos ha] at hi
      exact List.mem_cons_of_mem _ (ih seen i hi)
    · rw [if_neg ha] at hi
      rcases List.mem_cons.mp hi with h1 | h1
      · exact h1 ▸ List.mem_cons_self _ _
      · exact List.mem_cons_of_mem _ (ih _ i h1)

theorem pickField_cases (cap : Option String) (item : String) :
    pickField cap item = item ∨ cap = some (pickField cap item) := by
  cases cap with
  | none => exact Or.inl rfl
  | some v =>
    simp only [pickField]
    split_ifs with h
    · exact Or.inr rfl
    · exact Or.inl rfl

/-- C6: every image candidate produced by the extractors has each of its
four effective fields equal either to the caption-derived value for that
same field or to the item-level value for that same field — the fallback
is field-by-field, never mixing sources within a field or borrowing a
different field's value. -/
theorem c6_per_field_fallback (figs : List (String × String)) (meta : ItemMeta)
    (img : ImageData) (h : img ∈ extractImages figs meta) :
    ((parse_figcaption img.caption).artist = some img.artist ∨ img.artist = meta.author) ∧
    ((parse_figcaption img.caption).title = some img.title ∨ img.title = meta.title) ∧
    ((parse_figcaption img.caption).year = some img.year ∨ img.year = meta.year) ∧
    ((parse_figcaption img.caption).medium = some img.medium ∨ img.medium = meta.medium) := by
  have hmem : img ∈ figs.map (fun f => mkImage f.1 f.2 meta) :=
    dedupImages_subset _ _ img h
  rw [List.mem_map] at hmem
  obtain ⟨f, _, rfl⟩ := hmem
  exact ⟨(pickField_cases _ _).symm, (pickField_cases _ _).symm,
    (pickField_cases _ _).symm, (pickField_cases _ _).symm⟩

/-- C6 witness: the per-field fallback property at a concrete extraction. -/
theorem c6_per_field_fallback_witness :
    ((parse_figcaption exImg6.caption).artist = some exImg6.artist ∨ exImg6.artist = exMeta6.author) ∧
    ((parse_figcaption exImg6.caption).title = some exImg6.title ∨ exImg6.title = exMeta6.title) ∧
    ((parse_figcaption exImg6.caption).year = some exImg6.year ∨ exImg6.year = exMeta6.year) ∧
    ((parse_figcaption exImg6.caption).medium = some exImg6.medium ∨ exImg6.medium = exMeta6.medium) :=
  c6_per_field_fallback [("u1", "Ada Byron, Study")] exMeta6 exImg6 (by decide)

/-! ## Claim theorems: the metadata enhancer (C8) -/

theorem fillIfUnknown_resolved (cur : String) (v? : Option String) (h : cur ≠ "Unknown") :
    fillIfUnknown cur v? = cur := by
  cases v? with
  | none => rfl
  | some v => simp [fillIfUnknown, h]

theorem setKeywords_fields (meta : ItemMeta) (v? : Option String) :
    (setKeywords meta v?).author = meta.author ∧
    (setKeywords meta v?).title = meta.title ∧
    (setKeywords meta v?).year = meta.year ∧
    (setKeywords meta v?).medium = meta.medium := by
  cases v? with
  | none => exact ⟨rfl, rfl, rfl, rfl⟩
  | some v =>
    simp only [setKeywords]
    split_ifs <;> exact ⟨rfl, rfl, rfl, rfl⟩

theorem acceptArtist_ne_unknown (s v : String) (h : acceptArtist s = some v) :
    v ≠ "Unknown" := by
  simp only [acceptArtist] at h
  split_ifs at h with hc
  · injection h with h'
    exact h' ▸ hc.1

theorem acceptYear_ne_unknown (s v : String) (h : acceptYear s = some v) :
    v ≠ "Unknown" := by
  simp only [acceptYear] at h
  split_ifs at h with hc
  · injection h with h'
    exact h' ▸ hc

theorem acceptMedium_ne_unknown (s v : String) (h : acceptMedium s = some v) :
    v ≠ "Unknown" := by
  simp only [acceptMedium] at h
  split_ifs at h with hc
  · injection h with h'
    exact h' ▸ hc

theorem acceptKeywords_ne_unknown (s v : String) (h : acceptKeywords s = some v) :
    v ≠ "Unknown" := by
  simp only [acceptKeywords] at h
  split_ifs at h with hc
  · injection h with h'
    exact h' ▸ hc.1

theorem bind_accept_ne_unknown (f : String → Option String)
    (hf : ∀ s v, f s = some v → v ≠ "Unknown") (a : Option String) (v : String)
    (h : a.bind f = some v) : v ≠ "Unknown" := by
  cases a with
  | none => cases h
  | some s => exact hf s v h

/-- C8: the enhancer never overwrites an already-resolved item metadata
field (a field not equal to the `"Unknown"` sentinel keeps its prior
value; `title` is never touched at all), and a value parsed from a label
of the service response is accepted only if it is not the literal
`"Unknown"`. -/
theorem c8_enhancer_fill_only (meta : ItemMeta) (e : EnhResult) :
    (applyEnhanced meta e).title = meta.title ∧
    (meta.author ≠ "Unknown" → (applyEnhanced meta e).author = meta.author) ∧
    (meta.year ≠ "Unknown" → (applyEnhanced meta e).year = meta.year) ∧
    (meta.medium ≠ "Unknown" → (applyEnhanced meta e).medium = meta.medium) ∧
    (∀ a y m k v,
      ((parseEnhancerOutput a y m k).author = some v → v ≠ "Unknown") ∧
      ((parseEnhancerOutput a y m k).year = some v → v ≠ "Unknown") ∧
      ((parseEnhancerOutput a y m k).medium = some v → v ≠ "Unknown") ∧
      ((parseEnhancerOutput a y m k).keywords = some v → v ≠ "Unknown")) := by
  obtain ⟨hka, hkt, hky, hkm⟩ := setKeywords_fields
    { meta with
        author := fillIfUnknown meta.author e.author,
        year := fillIfUnknown meta.year e.year,
        medium := fillIfUnknown meta.medium e.medium }
    e.keywords
  refine ⟨hkt, ?_, ?_, ?_, ?_⟩
  · intro h
    exact hka.trans (fillIfUnknown_resolved _ _ h)
  · intro h
    exact hky.trans (fillIfUnknown_resolved _ _ h)
  · intro h
    exact hkm.trans (fillIfUnknown_resolved _ _ h)
  · intro a y m k v
    exact ⟨bind_accept_ne_unknown acceptArtist acceptArtist_ne_unknown a v,
      bind_accept_ne_unknown acceptYear acceptYear_ne_unknown y v,
      bind_accept_ne_unknown acceptMedium acceptMedium_ne_unknown m v,
      bind_accept_ne_unknown acceptKeywords acceptKeywords_ne_unknown k v⟩

/-- C8 witness: a resolved author survives an enhancer result that offers a
different author. -/
theorem c8_enhancer_fill_only_witness :
    (applyEnhanced
      { author := "Alice", title := "T", year := "1999", medium := "Oil" }
      { author := some "Bob", year := some "2001", medium := some "Ink",
        keywords := some "city" }).author = "Alice" :=
  (c8_enhancer_fill_only
    { author := "Alice", title := "T", year := "1999", medium := "Oil" }
    { author := some "Bob", year := some "2001", medium := some "Ink",
      keywords := some "city" }).2.1 (by decide)

/-! ## Claim theorems: per-item failure isolation in the batch controller (C1, C9) -/

theorem lookup_setLedger (l : List (String × ProcessingRecord)) (u : String)
    (r : ProcessingRecord) : lookupLedger (setLedger l u r) u = some r := by
  induction l with
  | nil => simp [setLedger, lookupLedger]
  | cons p rest ih =>
    obtain ⟨k, v⟩ := p
    by_cases hk : k = u
    · subst hk
      simp [setLedger, lookupLedger]
    · simp [setLedger, lookupLedger, hk, ih]

theorem mem_addUnprocessed (proc : String → Bool) (count : Nat) :
    ∀ (urls acc : List String) (u : String),
      u ∈ addUnprocessed proc count acc urls → u ∈ acc ∨ proc u = false := by
  intro urls
  induction urls with
  | nil =>
    intro acc u hu
    simp only [addUnprocessed] at hu
    exact Or.inl hu
  | cons a rest ih =>
    intro acc u hu
    simp only [addUnprocessed] at hu
    by_cases hpa : proc a = true
    · rw [if_pos hpa] at hu
      exact ih acc u hu
    · rw [if_neg hpa] at hu
      have hfa : proc a = false := by
        cases h' : proc a
        · rfl
        · exact absurd h' hpa
      by_cases hcnt : count ≤ (acc ++ [a]).length
      · rw [if_pos hcnt] at hu
        rcases List.mem_append.mp hu with h1 | h1
        · exact Or.inl h1
        · have he : u = a := by simpa using h1
          exact Or.inr (he ▸ hfa)
      · rw [if_neg hcnt] at hu
        rcases ih (acc ++ [a]) u hu with h1 | h1
        · rcases List.mem_append.mp h1 with h2 | h2
          · exact Or.inl h2
          · have he : u = a := by simpa using h2
            exact Or.inr (he ▸ hfa)
        · exact Or.inr h1

theorem mem_discoverLoop (listing : Option Nat → List String) (proc : String → Bool)
    (count : Nat) :
    ∀ (fuel : Nat) (acc : List String) (fetched : Nat) (r : List String) (u : String),
      discoverLoop listing proc count fuel acc fetched = some r → u ∈ r →
      u ∈ acc ∨ proc u = false := by
  intro fuel
  induction fuel with
  | zero =>
    intro acc fetched r u hres
    simp only [discoverLoop] at hres
    cases hres
  | succ fuel ih =>
    intro acc fetched r u hres hu
    simp only [discoverLoop] at hres
    by_cases hcnt : count ≤ acc.length
    · rw [if_pos hcnt] at hres
      injection hres with h'
      exact Or.inl (h' ▸ hu)
    · rw [if_neg hcnt] at hres
      by_cases hlen : (listing (some (fetched + 50))).length = fetched
      · rw [if_pos hlen] at hres
        injection hres with h'
        exact Or.inl (h' ▸ hu)
      · rw [if_neg hlen] at hres
        rcases ih _ _ r u hres hu with h1 | h1
        · exact mem_addUnprocessed proc count _ acc u h1
        · exact Or.inr h1

/-- C1: when extraction returns no data, zero qualifying images are found,
or the presentation build fails, `process_article` raises without touching
the ledger (the whole state is unchanged, so the URL stays absent and will
be retried), and the batch loop counts the item as skipped and proceeds
with the remaining items — the exception never aborts the batch. -/
theorem c1_failure_isolation (env : Env) (s : BatchState) (u : String) (rest : List String)
    (h : env.extract u = none ∨
         (∃ ad, env.extract u = some ad ∧ ad.images = []) ∨
         (∃ ad, env.extract u = some ad ∧ ad.images ≠ [] ∧ env.buildPres ad = none)) :
    process_article env s u = (ItemResult.err, s) ∧
    runItems env s (u :: rest) =
      ((runItems env s rest).1, (runItems env s rest).2.1, (runItems env s rest).2.2 + 1) := by
  have hp : process_article env s u = (ItemResult.err, s) := by
    rcases h with h1 | ⟨ad, ha, hi⟩ | ⟨ad, ha, hi, hb⟩
    · simp only [process_article, h1]
    · have hie : ad.images.isEmpty = true := by simp [List.isEmpty_iff, hi]
      simp only [process_article, ha, hie, if_true]
    · have hie : ad.images.isEmpty = false := by simp [List.isEmpty_iff, hi]
      simp only [process_article, ha, hie, if_false, hb]
      simp
  refine ⟨hp, ?_⟩
  simp only [runItems, hp]

/-- C1 witness: a state-preserving skip at a concrete failing item. -/
theorem c1_failure_isolation_witness :
    process_article exEnvFail { ledger := [], catalog := [] } "https://e/a" =
      (ItemResult.err, { ledger := [], catalog := [] }) ∧
    runItems exEnvFail { ledger := [], catalog := [] } ["https://e/a"] =
      ((runItems exEnvFail { ledger := [], catalog := [] } []).1,
       (runItems exEnvFail { ledger := [], catalog := [] } []).2.1,
       (runItems exEnvFail { ledger := [], catalog := [] } []).2.2 + 1) :=
  c1_failure_isolation exEnvFail { ledger := [], catalog := [] } "https://e/a" []
    (Or.inl rfl)

/-- C9: in `process_article` the ledger record is written before the
catalog append, so if the catalog append raises after a successful build,
the ledger keeps the record (no rollback) while the catalog is unchanged;
the batch loop counts the item as skipped, yet the URL is now marked
processed and can never be selected by a later discovery pass. -/
theorem c9_ledger_written_catalog_raises (env : Env) (s : BatchState) (u : String)
    (rest : List String) (ad : ArticleData) (pid : String)
    (hx : env.extract u = some ad) (hi : ad.images ≠ [])
    (hb : env.buildPres ad = some pid) (hc : env.catalogRaises u = true) :
    process_article env s u =
      (ItemResult.err,
        { ledger := setLedger s.ledger u (mkPresData env ad pid), catalog := s.catalog }) ∧
    isProcessed
      { ledger := setLedger s.ledger u (mkPresData env ad pid), catalog := s.catalog } u = true ∧
    runItems env s (u :: rest) =
      ((runItems env
          { ledger := setLedger s.ledger u (mkPresData env ad pid), catalog := s.catalog } rest).1,
       (runItems env
          { ledger := setLedger s.ledger u (mkPresData env ad pid), catalog := s.catalog } rest).2.1,
       (runItems env
          { ledger := setLedger s.ledger u (mkPresData env ad pid), catalog := s.catalog } rest).2.2 + 1) ∧
    (∀ (listing : Option Nat → List String) (count fuel : Nat) (r : List String),
      discover listing
        (fun v =>
          isProcessed
            { ledger := setLedger s.ledger u (mkPresData env ad pid), catalog := s.catalog } v)
        count fuel = some r → u ∉ r) := by
  have hie : ad.images.isEmpty = false := by simp [List.isEmpty_iff, hi]
  have hp : process_article env s u =
      (ItemResult.err,
        { ledger := setLedger s.ledger u (mkPresData env ad pid), catalog := s.catalog }) := by
    simp only [process_article, hx, hie, if_false, hb, hc, if_true]
    simp
  have hproc : isProcessed
      { ledger := setLedger s.ledger u (mkPresData env ad pid), catalog := s.catalog } u = true := by
    simp [isProcessed, lookup_setLedger]
  refine ⟨hp, hproc, ?_, ?_⟩
  · simp only [runItems, hp]
  · intro listing count fuel r hres hu
    rcases mem_discoverLoop listing _ count fuel [] 0 r u hres hu with h1 | h1
    · simp at h1
    · simp only [hproc] at h1
      cases h1

/-- C9 witness: concrete run in which the build succeeds and the catalog
append raises. -/
theorem c9_ledger_written_catalog_raises_witness :
    process_article exEnv9 { ledger := [], catalog := [] } "https://e/b" =
      (ItemResult.err,
        { ledger := setLedger [] "https://e/b" (mkPresData exEnv9 exAd9 "P9"), catalog := [] }) ∧
    isProcessed
      { ledger := setLedger [] "https://e/b" (mkPresData exEnv9 exAd9 "P9"), catalog := [] }
      "https://e/b" = true ∧
    runItems exEnv9 { ledger := [], catalog := [] } ["https://e/b"] =
      ((runItems exEnv9
          { ledger := setLedger [] "https://e/b" (mkPresData exEnv9 exAd9 "P9"), catalog := [] } []).1,
       (runItems exEnv9
          { ledger := setLedger [] "https://e/b" (mkPresData exEnv9 exAd9 "P9"), catalog := [] } []).2.1,
       (runItems exEnv9
          { ledger := setLedger [] "https://e/b" (mkPresData exEnv9 exAd9 "P9"), catalog := [] } []).2.2 + 1) ∧
    (∀ (listing : Option Nat → List String) (count fuel : Nat) (r : List String),
      discover listing
        (fun v =>
          isProcessed
            { ledger := setLedger [] "https://e/b" (mkPresData exEnv9 exAd9 "P9"), catalog := [] } v)
        count fuel = some r → "https://e/b" ∉ r) :=
  c9_ledger_written_catalog_raises exEnv9 { ledger := [], catalog := [] } "https://e/b" []
    exAd9 "P9" rfl (by decide) rfl rfl

/-! ## Listing fetcher lemmas (towards C7, C10, C2) -/

theorem limitHit_none (n : Nat) : limitHit none n = false := rfl

/-- Without a limit, the per-page loop consumes the whole page and
implements first-occurrence deduplication of its link stream. -/
theorem addLinks_none (arts : List (Option String)) :
    ∀ acc, addLinks none acc arts = (dedupStream acc (arts.filterMap id), false) := by
  induction arts with
  | nil => intro acc; rfl
  | cons a rest ih =>
    intro acc
    cases a with
    | none => simp [addLinks, ih]
    | some u =>
      by_cases hu : u ∈ acc
      · simp [addLinks, dedupStream, hu, ih]
      · simp [addLinks, dedupStream, hu, ih, limitHit]

/-- With any limit, the per-page loop deduplicates some prefix of the
page's link stream, and consumes it whole when it does not early-return. -/
theorem addLinks_stream (limit : Option Nat) (arts : List (Option String)) :
    ∀ acc, ∃ pre t,
      arts.filterMap id = pre ++ t ∧
      (addLinks limit acc arts).1 = dedupStream acc pre ∧
      ((addLinks limit acc arts).2 = false → t = []) := by
  induction arts with
  | nil => exact fun acc => ⟨[], [], rfl, rfl, fun _ => rfl⟩
  | cons a rest ih =>
    intro acc
    cases a with
    | none =>
      obtain ⟨pre, t, h1, h2, h3⟩ := ih acc
      exact ⟨pre, t, by simpa using h1, by simpa [addLinks] using h2,
        by simpa [addLinks] using h3⟩
    | some u =>
      by_cases hu : u ∈ acc
      · obtain ⟨pre, t, h1, h2, h3⟩ := ih acc
        refine ⟨u :: pre, t, ?_, ?_, ?_⟩
        · simp [h1]
        · simpa [addLinks, hu, dedupStream] using h2
        · simpa [addLinks, hu] using h3
      · by_cases hlim : limitHit limit (acc.length + 1) = true
        · refine ⟨[u], rest.filterMap id, by simp, ?_, ?_⟩
          · simp [addLinks, hu, hlim, dedupStream]
          · simp [addLinks, hu, hlim]
        · have hlim' : limitHit limit (acc.length + 1) = false := by
            cases h' : limitHit limit (acc.length + 1)
            · rfl
            · exact absurd h' hlim
          obtain ⟨pre, t, h1, h2, h3⟩ := ih (acc ++ [u])
          refine ⟨u :: pre, t, ?_, ?_, ?_⟩
          · simp [h1]
          · simpa [addLinks, hu, hlim', dedupStream] using h2
          · simpa [addLinks, hu, hlim'] using h3

theorem dedupStream_append (xs ys : List String) :
    ∀ acc, dedupStream acc (xs ++ ys) = dedupStream (dedupStream acc xs) ys := by
  induction xs with
  | nil => intro acc; rfl
  | cons u rest ih =>
    intro acc
    by_cases hu : u ∈ acc <;> simp [dedupStream, hu, ih]

theorem dedupStream_extends (s : List String) :
    ∀ acc, ∃ t, dedupStream acc s = acc ++ t := by
  induction s with
  | nil => exact fun acc => ⟨[], by simp [dedupStream]⟩
  | cons u rest ih =>
    intro acc
    by_cases hu : u ∈ acc
    · obtain ⟨t, ht⟩ := ih acc
      exact ⟨t, by simpa [dedupStream, hu] using ht⟩
    · obtain ⟨t, ht⟩ := ih (acc ++ [u])
      exact ⟨u :: t, by simpa [dedupStream, hu] using ht⟩

theorem dedupStream_nodup (s : List String) :
    ∀ acc, acc.Nodup → (dedupStream acc s).Nodup := by
  induction s with
  | nil => intro acc h; simpa [dedupStream] using h
  | cons u rest ih =>
    intro acc h
    by_cases hu : u ∈ acc
    · simpa [dedupStream, hu] using ih acc h
    · have h' : (acc ++ [u]).Nodup := by
        rw [List.nodup_append]
        refine ⟨h, List.nodup_singleton u, ?_⟩
        intro a ha hau
        rw [List.mem_singleton] at hau
        exact hu (hau ▸ ha)
      simpa [dedupStream, hu] using ih (acc ++ [u]) h'

/-- The pagination loop computes the first-occurrence deduplication of a
prefix of the link stream of the pages it may visit. -/
theorem paginate_stream (pages : Nat → List (Option String)) (limit : Option Nat) :
    ∀ (fuel page : Nat) (acc : List String), ∃ pre t,
      pageStreamFrom pages page fuel = pre ++ t ∧
      paginate pages limit fuel page acc = dedupStream acc pre := by
  intro fuel
  induction fuel with
  | zero => exact fun page acc => ⟨[], [], rfl, rfl⟩
  | succ fuel ih =>
    intro page acc
    by_cases hempty : (pages page).isEmpty = true
    · refine ⟨[], pageStreamFrom pages page (fuel + 1), rfl, ?_⟩
      simp [paginate, hempty, dedupStream]
    · have hempty' : (pages page).isEmpty = false := by
        cases h' : (pages page).isEmpty
        · rfl
        · exact absurd h' hempty
      obtain ⟨preA, tA, ha1, ha2, ha3⟩ := addLinks_stream limit (pages page) acc
      rcases haa : addLinks limit acc (pages page) with ⟨acc', b⟩
      rw [haa] at ha2 ha3
      cases b with
      | true =>
        refine ⟨preA, tA ++ pageStreamFrom pages (page + 1) fuel, ?_, ?_⟩
        · simp [pageStreamFrom, ha1]
        · have hstep : paginate pages limit (fuel + 1) page acc = acc' := by
            simp [paginate, hempty', haa]
          rw [hstep]
          exact ha2
      | false =>
        have htA : tA = [] := ha3 rfl
        subst htA
        obtain ⟨preB, tB, hb1, hb2⟩ := ih (page + 1) acc'
        refine ⟨preA ++ preB, tB, ?_, ?_⟩
        · simp [pageStreamFrom, ha1, hb1]
        · have hstep : paginate pages limit (fuel + 1) page acc =
              paginate pages limit fuel (page + 1) acc' := by
            simp [paginate, hempty', haa]
          have ha2' : acc' = dedupStream acc preA := ha2
          rw [hstep, hb2, dedupStream_append, ha2']

theorem paginate_extends (pages : Nat → List (Option String)) (limit : Option Nat)
    (fuel page : Nat) (acc : List String) :
    ∃ t, paginate pages limit fuel page acc = acc ++ t := by
  obtain ⟨pre, t, _, h2⟩ := paginate_stream pages limit fuel page acc
  obtain ⟨t', ht'⟩ := dedupStream_extends pre acc
  exact ⟨t', by rw [h2, ht']⟩

/-- A positive limit truncates the per-page loop to the first `l` collected
links of the unlimited run. -/
theorem addLinks_some (l : Nat) (hl : 0 < l) (arts : List (Option String)) :
    ∀ acc : List String, acc.length < l →
      addLinks (some l) acc arts =
        (if l ≤ (dedupStream acc (arts.filterMap id)).length
         then ((dedupStream acc (arts.filterMap id)).take l, true)
         else (dedupStream acc (arts.filterMap id), false)) := by
  induction arts with
  | nil =>
    intro acc hacc
    have hnot : ¬ l ≤ acc.length := Nat.not_le.mpr hacc
    simp [addLinks, dedupStream, hnot]
  | cons a rest ih =>
    intro acc hacc
    cases a with
    | none => simpa [addLinks] using ih acc hacc
    | some u =>
      by_cases hu : u ∈ acc
      · simpa [addLinks, hu, dedupStream] using ih acc hacc
      · by_cases heq : l = acc.length + 1
        · have hhit : limitHit (some l) (acc.length + 1) = true := by
            simp [limitHit]
            omega
          obtain ⟨t, ht⟩ := dedupStream_extends (rest.filterMap id) (acc ++ [u])
          have hD : dedupStream acc ((some u :: rest).filterMap id) = (acc ++ [u]) ++ t := by
            simp [dedupStream, hu, ht]
          have hlen : l ≤ (dedupStream acc ((some u :: rest).filterMap id)).length := by
            rw [hD]
            simp
            omega
          rw [if_pos hlen, hD]
          have hLacc : l = (acc ++ [u]).length := by simp [heq]
          have htake : ((acc ++ [u]) ++ t).take l = acc ++ [u] := by
            rw [hLacc]
            exact List.take_left _ _
          rw [htake]
          simp [addLinks, hu, hhit]
        · have hlt : acc.length + 1 < l := by omega
          have hhit : limitHit (some l) (acc.length + 1) = false := by
            simp [limitHit]
            omega
          have := ih (acc ++ [u]) (by simpa using hlt)
          simpa [addLinks, hu, hhit, dedupStream] using this

/-- A positive limit truncates the whole pagination walk to the first `l`
collected links of the unlimited walk. -/
theorem paginate_some (pages : Nat → List (Option String)) (l : Nat) (hl : 0 < l) :
    ∀ (fuel page : Nat) (acc : List String), acc.length < l →
      paginate pages (some l) fuel page acc =
        (if l ≤ (paginate pages none fuel page acc).length
         then (paginate pages none fuel page acc).take l
         else paginate pages none fuel page acc) := by
  intro fuel
  induction fuel with
  | zero =>
    intro page acc hacc
    have hnot : ¬ l ≤ acc.length := Nat.not_le.mpr hacc
    simp [paginate, hnot]
  | succ fuel ih =>
    intro page acc hacc
    by_cases hempty : (pages page).isEmpty = true
    · have hnot : ¬ l ≤ acc.length := Nat.not_le.mpr hacc
      simp [paginate, hempty, hnot]
    · have hempty' : (pages page).isEmpty = false := by
        cases h' : (pages page).isEmpty
        · rfl
        · exact absurd h' hempty
      have hnone := addLinks_none (pages page) acc
      have hustep : paginate pages none (fuel + 1) page acc =
          paginate pages none fuel (page + 1)
            (dedupStream acc ((pages page).filterMap id)) := by
        simp [paginate, hempty', hnone]
      obtain ⟨t0, ht0⟩ := paginate_extends pages none fuel (page + 1)
        (dedupStream acc ((pages page).filterMap id))
      have hsome := addLinks_some l hl (pages page) acc hacc
      by_cases hD : l ≤ (dedupStream acc ((pages page).filterMap id)).length
      · rw [if_pos hD] at hsome
        have hlstep : paginate pages (some l) (fuel + 1) page acc =
            (dedupStream acc ((pages page).filterMap id)).take l := by
          simp [paginate, hempty', hsome]
        have hFlen : l ≤ (paginate pages none (fuel + 1) page acc).length := by
          rw [hustep, ht0]
          simp
          omega
        rw [hlstep, if_pos hFlen, hustep, ht0]
        exact (List.take_append_of_le_length hD).symm
      · rw [if_neg hD] at hsome
        have hlstep : paginate pages (some l) (fuel + 1) page acc =
            paginate pages (some l) fuel (page + 1)
              (dedupStream acc ((pages page).filterMap id)) := by
          simp [paginate, hempty', hsome]
        rw [hlstep, ih (page + 1) _ (Nat.lt_of_not_le hD), hustep]

/-- With a positive limit, `get_article_urls` returns exactly the first `l`
URLs of the unlimited listing. -/
theorem get_article_urls_take (site : Site) (pages : Nat → List (Option String))
    (l : Nat) (hl : 0 < l) :
    get_article_urls site pages (some l) = (get_article_urls site pages none).take l := by
  unfold get_article_urls
  rw [paginate_some pages l hl (pageCeiling site) 1 [] (by simpa using hl)]
  split_ifs with h
  · rfl
  · exact (List.take_of_length_le (Nat.le_of_lt (Nat.lt_of_not_le h))).symm

theorem get_article_urls_length (site : Site) (pages : Nat → List (Option String))
    (l : Nat) (hl : 0 < l) :
    (get_article_urls site pages (some l)).length =
      min l (get_article_urls site pages none).length := by
  rw [get_article_urls_take site pages l hl]
  exact List.length_take _ _

/-! ## Claim theorems: the listing fetcher (C7) -/

/-- C7 counterexample: on a listing whose page 2 repeats page 1's only
link, page 2 yields zero new links (collecting it into `["A"]` leaves the
collection unchanged), yet pagination does not stop there: the result also
contains `"B"`, which first appears on page 3.  This refutes "pagination
stops exactly when a page yields zero new links"; the code only stops when
a page yields zero extracted elements. -/
theorem c7_counterexample :
    (addLinks none ["A"] (exPages7 2)).1 = ["A"] ∧
    get_article_urls Site.socks exPages7 none = ["A", "B"] := by decide

/-- C7 amended: for every site and optional limit, the listing fetcher
returns URLs deduplicated by URL preserving first-discovery order (the
result is the first-occurrence deduplication of a prefix of the paginated
link stream), returns at most `l` entries when a positive limit `l` is
given, and pagination stops when a page yields zero extracted elements
(rather than zero new links), when the hard page ceiling is reached, or
when the limit is met. -/
theorem c7_amended_listing_fetcher (site : Site) (pages : Nat → List (Option String))
    (limit : Option Nat) (hl : ∀ l, limit = some l → 0 < l) :
    (get_article_urls site pages limit).Nodup ∧
    (∀ l, limit = some l → (get_article_urls site pages limit).length ≤ l) ∧
    (∃ pre t, pageStreamFrom pages 1 (pageCeiling site) = pre ++ t ∧
      get_article_urls site pages limit = dedupStream [] pre) ∧
    (pages 1 = [] → get_article_urls site pages limit = []) := by
  obtain ⟨pre, t, h1, h2⟩ := paginate_stream pages limit (pageCeiling site) 1 []
  refine ⟨?_, ?_, ⟨pre, t, h1, h2⟩, ?_⟩
  · rw [show get_article_urls site pages limit = dedupStream [] pre from h2]
    exact dedupStream_nodup pre [] List.nodup_nil
  · intro l hleq
    subst hleq
    rw [get_article_urls_take site pages l (hl l rfl), List.length_take]
    exact Nat.min_le_left _ _
  · intro hp1
    cases site
    · show paginate pages limit (49 + 1) 1 [] = []
      simp [paginate, hp1]
    · show paginate pages limit (22 + 1) 1 [] = []
      simp [paginate, hp1]

/-- C7 amended witness: the concrete three-page listing. -/
theorem c7_amended_listing_fetcher_witness :
    (get_article_urls Site.socks exPages7 none).Nodup ∧
    (∀ l, (none : Option Nat) = some l →
      (get_article_urls Site.socks exPages7 none).length ≤ l) ∧
    (∃ pre t, pageStreamFrom exPages7 1 (pageCeiling Site.socks) = pre ++ t ∧
      get_article_urls Site.socks exPages7 none = dedupStream [] pre) ∧
    (exPages7 1 = [] → get_article_urls Site.socks exPages7 none = []) :=
  c7_amended_listing_fetcher Site.socks exPages7 none (by intro l h; cases h)

/-! ## Claim theorems: discovery-loop termination (C10) -/

theorem discoverLoop_isSome (site : Site) (pages : Nat → List (Option String))
    (proc : String → Bool) (count : Nat) :
    ∀ (fuel : Nat) (acc : List String) (fetched : Nat),
      fetched ≤ (get_article_urls site pages none).length →
      (get_article_urls site pages none).length - fetched < fuel →
      (discoverLoop (fun l => get_article_urls site pages l) proc count
        fuel acc fetched).isSome = true := by
  intro fuel
  induction fuel with
  | zero =>
    intro acc fetched hle hlt
    exact absurd hlt (Nat.not_lt_zero _)
  | succ fuel ih =>
    intro acc fetched hle hlt
    simp only [discoverLoop]
    by_cases hcnt : count ≤ acc.length
    · rw [if_pos hcnt]
      rfl
    · rw [if_neg hcnt]
      have hlen : (get_article_urls site pages (some (fetched + 50))).length =
          min (fetched + 50) (get_article_urls site pages none).length :=
        get_article_urls_length site pages (fetched + 50) (by omega)
      by_cases heq : (get_article_urls site pages (some (fetched + 50))).length = fetched
      · rw [if_pos heq]
        rfl
      · rw [if_neg heq]
        rcases Nat.le_total (fetched + 50) (get_article_urls site pages none).length
          with hm | hm
        · rw [Nat.min_eq_left hm] at hlen
          apply ih
          · omega
          · rw [hlen]
            omega
        · rw [Nat.min_eq_right hm] at hlen
          rw [hlen] at heq
          apply ih
          · omega
          · rw [hlen]
            omega

/-- C10: for every deterministic listing, the discovery loop of
`run_batch` terminates: each `get_article_urls` call is a finite,
ceiling-capped pagination, and with fuel one more than the full listing's
length the loop always reaches one of its own exits (target count reached,
or a fetch returning no URLs beyond those already fetched) — it never
loops forever, even when fewer than `count` unprocessed items exist. -/
theorem c10_discovery_terminates (site : Site) (pages : Nat → List (Option String))
    (proc : String → Bool) (count : Nat) :
    (discover (fun l => get_article_urls site pages l) proc count
      ((get_article_urls site pages none).length + 1)).isSome = true := by
  unfold discover
  exact discoverLoop_isSome site pages proc count _ [] 0 (Nat.zero_le _) (by omega)

/-! ## Claim theorems: batch idempotence via the ledger (C2) -/

theorem addUnprocessed_all (proc : String → Bool) (count : Nat) :
    ∀ (urls acc : List String), (∀ u ∈ urls, proc u = true) →
      addUnprocessed proc count acc urls = acc := by
  intro urls
  induction urls with
  | nil => intro acc _; rfl
  | cons a rest ih =>
    intro acc hall
    have ha : proc a = true := hall a (List.mem_cons_self _ _)
    simp only [addUnprocessed, ha, if_true]
    exact ih acc (fun u hu => hall u (List.mem_cons_of_mem _ hu))

theorem discoverLoop_all_processed (site : Site) (pages : Nat → List (Option String))
    (proc : String → Bool) (count : Nat)
    (hall : ∀ u ∈ get_article_urls site pages none, proc u = true) :
    ∀ (fuel fetched : Nat),
      fetched ≤ (get_article_urls site pages none).length →
      (get_article_urls site pages none).length - fetched < fuel →
      discoverLoop (fun l => get_article_urls site pages l) proc count
        fuel [] fetched = some [] := by
  intro fuel
  induction fuel with
  | zero =>
    intro fetched hle hlt
    exact absurd hlt (Nat.not_lt_zero _)
  | succ fuel ih =>
    intro fetched hle hlt
    simp only [discoverLoop]
    by_cases hcnt : count ≤ ([] : List String).length
    · rw [if_pos hcnt]
    · rw [if_neg hcnt]
      have hsub : ∀ u ∈ (get_article_urls site pages (some (fetched + 50))).drop fetched,
          proc u = true := by
        intro u hu
        apply hall
        have h1 : u ∈ get_article_urls site pages (some (fetched + 50)) :=
          List.drop_subset _ _ hu
        rw [get_article_urls_take site pages (fetched + 50) (by omega)] at h1
        exact List.take_subset _ _ h1
      have hlen : (get_article_urls site pages (some (fetched + 50))).length =
          min (fetched + 50) (get_article_urls site pages none).length :=
        get_article_urls_length site pages (fetched + 50) (by omega)
      by_cases heq : (get_article_urls site pages (some (fetched + 50))).length = fetched
      · rw [if_pos heq]
      · rw [if_neg heq]
        rw [addUnprocessed_all proc count _ [] hsub]
        rcases Nat.le_total (fetched + 50) (get_article_urls site pages none).length
          with hm | hm
        · rw [Nat.min_eq_left hm] at hlen
          apply ih
          · omega
          · rw [hlen]
            omega
        · rw [Nat.min_eq_right hm] at hlen
          rw [hlen] at heq
          apply ih
          · omega
          · rw [hlen]
            omega

/-- C2 counterexample: listing `[A, B]`, target count 1.  The first run
completes with its single selected item `A` successfully recorded
(created = 1, skipped = 0), yet a second run with the same target count
against the unchanged listing selects `B` and creates one new presentation
and ledger entry — not zero. -/
theorem c2_counterexample :
    runBatchModel exEnv2 Site.socks exPages2 1 { ledger := [], catalog := [] } =
      some ({ ledger := [("A", exRec2)], catalog := [("A", exRec2)] }, 1, 0) ∧
    runBatchModel exEnv2 Site.socks exPages2 1
        { ledger := [("A", exRec2)], catalog := [("A", exRec2)] } =
      some ({ ledger := [("A", exRec2), ("B", exRec2)],
              catalog := [("A", exRec2), ("B", exRec2)] }, 1, 0) := by decide

/-- C2 amended: if after a run every URL the unchanged listing yields is
recorded in the ledger (for instance because the listing has at most `N`
items and the run recorded them all), then a second batch run with any
target count selects and processes zero new items: discovery filters every
URL through `is_article_processed` and returns the empty selection, so the
state, the created count and the skipped count are untouched. -/
theorem c2_amended_second_run_empty (env : Env) (site : Site)
    (pages : Nat → List (Option String)) (count : Nat) (s : BatchState)
    (h : ∀ u ∈ get_article_urls site pages none, isProcessed s u = true) :
    runBatchModel env site pages count s = some (s, 0, 0) := by
  unfold runBatchModel discover
  rw [discoverLoop_all_processed site pages (fun u => isProcessed s u) count h
      ((get_article_urls site pages none).length + 1) 0 (Nat.zero_le _) (by omega)]
  rfl

/-- C2 amended witness: an exhausted one-item listing whose only URL is
already in the ledger. -/
theorem c2_amended_second_run_empty_witness :
    runBatchModel exEnvTrivial Site.socks exPages7 4
        { ledger := [("A", exRec2), ("B", exRec2)], catalog := [] } =
      some ({ ledger := [("A", exRec2), ("B", exRec2)], catalog := [] }, 0, 0) :=
  c2_amended_second_run_empty exEnvTrivial Site.socks exPages7 4
    { ledger := [("A", exRec2), ("B", exRec2)], catalog := [] } (by decide)

end ScrapeApp
